import Mathlib

/-
Verification development for the GstPEAQ model-output-variable (MOV) core:
the per-frame MOV kernels of movs.c and the MOV accumulator of movaccum.h.

Numerical conventions of the embedding: IEEE doubles are modelled by the
elements of a linear ordered field (instantiated with the rationals for
executable checks and with the reals for the analytic facts).  The
transcendental library routines (exp, pow, log, log10, sqrt, cos) and the
external FFT/band-grouping helpers are passed as explicit function
parameters; the real instantiations use Real.exp, Real.rpow and Real.log.
Compile-time switches follow the source defaults pinned by the spec:
SWAP_MOD_PATTS_FOR_NOISE_LOUDNESS_MOVS unset (no swap),
USE_FLOOR_FOR_STEPS_ABOVE_THRESHOLD unset (truncation toward zero),
EHS_SUBTRACT_DC_BEFORE_WINDOW unset (DC bin of the FFT output zeroed),
CENTER_EHS_CORRELATION_WINDOW unset.
-/

set_option maxRecDepth 8000

/-! ## Accumulator model (movaccum) -/

/-- Accumulation modes, from the PeaqMovAccumMode enum of movaccum.h. -/
inductive PeaqMovAccumMode where
  | MODE_AVG
  | MODE_AVG_LOG
  | MODE_RMS
  | MODE_RMS_ASYM
  | MODE_AVG_WINDOW
  | MODE_FILTERED_MAX
  | MODE_ADB
  deriving DecidableEq

/-- Modelled from the spec: the accumulator implementation (movaccum.c) is not
under src/.  The tentative/shadow state follows spec sections 3 and 9: a
committed per-channel state, a shadow copy, and the tentative flag.  The
per-channel state is kept abstract (type sigma); each mode instantiates it
with its sufficient statistics and its own step function. -/
structure PeaqMovAccum (σ : Type) where
  committed : σ
  shadow : σ
  tentative : Bool

/-- Modelled from the spec: a fresh accumulator holds the empty statistics in
both the committed state and the shadow, with the tentative flag cleared. -/
def peaq_movaccum_new {σ : Type} (s0 : σ) : PeaqMovAccum σ :=
  ⟨s0, s0, false⟩

/-- Modelled from the spec: setting tentative resets the shadow from the
committed state; clearing it merges (promotes) the shadow into the committed
state. -/
def peaq_movaccum_set_tentative {σ : Type} (acc : PeaqMovAccum σ) (b : Bool) :
    PeaqMovAccum σ :=
  if b then ⟨acc.committed, acc.committed, true⟩
  else if acc.tentative then ⟨acc.shadow, acc.shadow, false⟩ else acc

/-- Modelled from the spec: when tentative, accumulations go into the shadow
only; otherwise into the committed state.  The mode's fold is the abstract
step function. -/
def peaq_movaccum_accumulate {σ ι : Type} (step : σ → ι → σ)
    (acc : PeaqMovAccum σ) (e : ι) : PeaqMovAccum σ :=
  if acc.tentative then ⟨acc.committed, step acc.shadow e, true⟩
  else ⟨step acc.committed e, acc.shadow, false⟩

/-- A sequence of accumulate calls, in order. -/
def peaq_movaccum_accumulate_seq {σ ι : Type} (step : σ → ι → σ)
    (acc : PeaqMovAccum σ) (l : List ι) : PeaqMovAccum σ :=
  l.foldl (peaq_movaccum_accumulate step) acc

/-- Modelled from the spec: get_value is a pure readout of the committed
state; the mode's reduction formula is the abstract readout f. -/
def peaq_movaccum_read {σ β : Type} (f : σ → β) (acc : PeaqMovAccum σ) : β :=
  f acc.committed

section FieldDefs

variable {α : Type} [LinearOrderedField α]

/-- One step of the C pattern `if (x > a) a = x;`, used by the running maxima
in movs.c (detection probability, detection steps, NMR maximum). -/
def maxStep (a x : α) : α := if a < x then x else a

/-- Total weight of a per-channel accumulation sequence of (value, weight)
pairs. -/
def sum_weights (l : List (α × α)) : α := (l.map fun p => p.2).sum

/-- Total weighted sum of values of a per-channel accumulation sequence. -/
def sum_weighted_values (l : List (α × α)) : α := (l.map fun p => p.2 * p.1).sum

/-- Sum of squared weights. -/
def sum_sq_weights (l : List (α × α)) : α := (l.map fun p => p.2 ^ 2).sum

/-- Sum of squared weights times squared values. -/
def sum_sq_weighted_sq (l : List (α × α)) : α :=
  (l.map fun p => p.2 ^ 2 * p.1 ^ 2).sum

/-- Sum of squared values. -/
def sum_sq_values (l : List (α × α)) : α := (l.map fun p => p.1 ^ 2).sum

/-- Modelled from the spec: MODE_AVG per-channel value (movaccum.h section
5.2.1 formula). -/
def avg_value (l : List (α × α)) : α := sum_weighted_values l / sum_weights l

/-- Modelled from the spec: MODE_AVG_LOG per-channel value. -/
def avg_log_value (rlog10 : α → α) (l : List (α × α)) : α :=
  10 * rlog10 (avg_value l)

/-- Modelled from the spec: MODE_RMS per-channel value. -/
def rms_value (sqrtf : α → α) (l : List (α × α)) : α :=
  sqrtf (sum_sq_weighted_sq l / sum_sq_weights l)

/-- Modelled from the spec: MODE_RMS_ASYM per-channel value. -/
def rms_asym_value (sqrtf : α → α) (l : List (α × α)) : α :=
  sqrtf (sum_sq_values l / (l.length : α)) +
    1 / 2 * sqrtf (sum_sq_weights l / (l.length : α))

/-- Modelled from the spec: MODE_AVG_WINDOW per-channel value; windows of four
consecutive square roots, defined only once at least four samples exist. -/
def avg_window_value (sqrtf : α → α) (l : List (α × α)) : α :=
  let xs := l.map Prod.fst
  if xs.length < 4 then 0
  else
    sqrtf ((((List.range (xs.length - 3)).map fun i =>
      ((((xs.drop i).take 4).map sqrtf).sum / 4) ^ 4).sum) / ((xs.length - 3 : ℕ) : α))

/-- Modelled from the spec: MODE_FILTERED_MAX per-channel value: the maximum
of the IIR filter y_i = 0.9 y_(i-1) + 0.1 x_i started at 0. -/
def filtered_max_value (l : List (α × α)) : α :=
  (l.foldl (fun p e =>
    ((0.9 : α) * p.1 + 0.1 * e.1, maxStep p.2 ((0.9 : α) * p.1 + 0.1 * e.1)))
    ((0 : α), (0 : α))).2

/-- Modelled from the spec: MODE_ADB per-channel value, from the MODE_ADB
formula documented in movaccum.h: 0 at zero total weight, -0.5 at zero
weighted sum with nonzero weight, else log10 of the weighted average. -/
def adb_value (rlog10 : α → α) (l : List (α × α)) : α :=
  if sum_weights l = 0 then 0
  else if sum_weighted_values l = 0 then -(1 / 2)
  else rlog10 (sum_weighted_values l / sum_weights l)

/-- Arithmetic mean across channels. -/
def channel_average (xs : List α) : α := xs.sum / (xs.length : α)

/-- Modelled from the spec: peaq_movaccum_get_value (movaccum.c not under
src/), per the movaccum.h mode formulas; channels are averaged except for
MODE_FILTERED_MAX and MODE_ADB which use channel 0 only. -/
def peaq_movaccum_get_value (sqrtf rlog10 : α → α) :
    PeaqMovAccumMode → List (List (α × α)) → α
  | .MODE_AVG, chans => channel_average (chans.map avg_value)
  | .MODE_AVG_LOG, chans => channel_average (chans.map (avg_log_value rlog10))
  | .MODE_RMS, chans => channel_average (chans.map (rms_value sqrtf))
  | .MODE_RMS_ASYM, chans => channel_average (chans.map (rms_asym_value sqrtf))
  | .MODE_AVG_WINDOW, chans => channel_average (chans.map (avg_window_value sqrtf))
  | .MODE_FILTERED_MAX, chans => filtered_max_value (chans.headD [])
  | .MODE_ADB, chans => adb_value rlog10 (chans.headD [])

/-- Scaling every weight of every channel by the same constant. -/
def scale_weights (k : α) (chans : List (List (α × α))) : List (List (α × α)) :=
  chans.map (List.map fun p => (p.1, k * p.2))

/-! ## Noise loudness family (movs.c) -/

/-- The per-band numerator max(sTest*EP_Test - sRef*EP_Ref, 0) of (66) in
BS.1387, as computed inside calc_noise_loudness. -/
def noise_loudness_num (thres_fac S0 : α)
    (ref_modulation test_modulation ref_excitation test_excitation : ℕ → α)
    (i : ℕ) : α :=
  let sref := thres_fac * ref_modulation i + S0
  let stest := thres_fac * test_modulation i + S0
  max (stest * test_excitation i - sref * ref_excitation i) 0

/-- One band's contribution to the noise loudness sum, from the loop body of
calc_noise_loudness in movs.c. -/
def noise_loudness_term (rexp : α → α) (rpow : α → α → α)
    (alpha thres_fac S0 : α) (internal_noise : ℕ → α)
    (ref_modulation test_modulation ref_excitation test_excitation : ℕ → α)
    (i : ℕ) : α :=
  let sref := thres_fac * ref_modulation i + S0
  let stest := thres_fac * test_modulation i + S0
  let ethres := internal_noise i
  let ep_ref := ref_excitation i
  let ep_test := test_excitation i
  let beta := rexp (-alpha * (ep_test - ep_ref) / ep_ref)
  rpow (ethres / stest) 0.23 *
    (rpow (1 + noise_loudness_num thres_fac S0 ref_modulation test_modulation
        ref_excitation test_excitation i / (ethres + sref * ep_ref * beta)) 0.23 - 1)

/-- calc_noise_loudness from movs.c: the band sum scaled by 24/Z, clamped to 0
below NLmin. -/
def calc_noise_loudness (rexp : α → α) (rpow : α → α → α)
    (alpha thres_fac S0 NLmin : α) (band_count : ℕ) (internal_noise : ℕ → α)
    (ref_modulation test_modulation ref_excitation test_excitation : ℕ → α) : α :=
  let nl := ((List.range band_count).map
      (noise_loudness_term rexp rpow alpha thres_fac S0 internal_noise
        ref_modulation test_modulation ref_excitation test_excitation)).sum *
    (24 / (band_count : α))
  if nl < NLmin then 0 else nl

/-- Per-channel inputs of peaq_mov_lin_dist: the reference and test modulation
patterns, the adapted reference pattern (leveladapter) and the raw reference
excitation (ear model). -/
structure LinDistChan (α : Type) where
  refMod : ℕ → α
  testMod : ℕ → α
  adaptedRef : ℕ → α
  excRef : ℕ → α

/-- peaq_mov_lin_dist from movs.c with SWAP_MOD_PATTS_FOR_NOISE_LOUDNESS_MOVS
unset (the source default pinned by the spec): per channel it accumulates
calc_noise_loudness(1.5, 0.15, 1, 0, ref modulation, test modulation,
adapted reference pattern, raw reference excitation) with weight 1.  The
result lists the (value, weight) pairs pushed, channel by channel. -/
def peaq_mov_lin_dist (rexp : α → α) (rpow : α → α → α) (band_count : ℕ)
    (internal_noise : ℕ → α) (chans : List (LinDistChan α)) : List (α × α) :=
  chans.map fun ch =>
    (calc_noise_loudness rexp rpow 1.5 0.15 1 0 band_count internal_noise
      ch.refMod ch.testMod ch.adaptedRef ch.excRef, 1)

/-! ## Bandwidth (movs.c) -/

/-- The downward search loop of peaq_mov_bandwidth: starting from n, return
the largest i in [1, n] whose predecessor bin satisfies the hit predicate,
or 0 when none does.  In the source the predicate is a comparison of the
power spectrum at bin i-1 against a threshold. -/
def bw_search (hit : ℕ → Bool) : ℕ → ℕ
  | 0 => 0
  | n + 1 => if hit n then n + 1 else bw_search hit n

/-- The zero threshold of peaq_mov_bandwidth: the running maximum of the test
power spectrum over bins 921..1023, seeded with bin 921 and updated on >=. -/
def zero_threshold (tps : ℕ → α) : α :=
  ((List.range' 922 102).map tps).foldl (fun zt x => if zt ≤ x then x else zt)
    (tps 921)

/-- The reference bandwidth of peaq_mov_bandwidth: the largest i in [1, 921]
with reference power spectrum at bin i-1 strictly above 10 times the zero
threshold, else 0. -/
def bandwidth_ref (rps tps : ℕ → α) : ℕ :=
  bw_search (fun i => decide (10 * zero_threshold tps < rps i)) 921

/-- The test bandwidth of peaq_mov_bandwidth: the largest i in [1, bw_ref]
with test power spectrum at bin i-1 at least FIVE_DB_POWER_FACTOR
(= 3.16227766016838, the source's constant for 10^(5/10)) times the zero
threshold, else 0. -/
def bandwidth_test (rps tps : ℕ → α) : ℕ :=
  bw_search (fun i => decide ((3.16227766016838 : α) * zero_threshold tps ≤ tps i))
    (bandwidth_ref rps tps)

/-- One channel of peaq_mov_bandwidth: when the reference bandwidth exceeds
346 the pair of (value, weight) pushes to the two bandwidth accumulators,
otherwise none (nothing accumulated this frame). -/
def peaq_mov_bandwidth (rps tps : ℕ → α) : Option ((α × α) × (α × α)) :=
  if 346 < bandwidth_ref rps tps then
    some ((((bandwidth_ref rps tps : ℕ) : α), 1),
      (((bandwidth_test rps tps : ℕ) : α), 1))
  else none

/-- The claim-side characterisation of the bandwidth searches: m is 0 and no
i in [1, n] hits, or m is in [1, n], hits, and no larger i in (m, n] hits.
The hit predicate reads bin i-1, as the searches do. -/
def IsLargestHit (hit : ℕ → Bool) (n m : ℕ) : Prop :=
  (m = 0 ∧ ∀ i, 1 ≤ i → i ≤ n → hit (i - 1) = false) ∨
  (1 ≤ m ∧ m ≤ n ∧ hit (m - 1) = true ∧ ∀ i, m < i → i ≤ n → hit (i - 1) = false)

/-! ## Noise-to-mask ratio (movs.c) -/

/-- Per-channel inputs of peaq_mov_nmr: weighted power spectra of reference
and test and the reference excitation pattern. -/
structure NmrChan (α : Type) where
  refWPS : ℕ → α
  testWPS : ℕ → α
  refExc : ℕ → α

/-- The noise power spectrum of peaq_mov_nmr: Fr - 2 sqrt(Fr Ft) + Ft per
bin. -/
def noise_spectrum (sqrtf : α → α) (fr ft : ℕ → α) (i : ℕ) : α :=
  fr i - 2 * sqrtf (fr i * ft i) + ft i

/-- One band's noise-to-mask ratio: the band-grouped noise power divided by
the mask (reference excitation over masking difference).  The ear model's
band grouping is the abstract parameter group. -/
def nmr_band (sqrtf : α → α) (group : (ℕ → α) → ℕ → α)
    (masking_difference : ℕ → α) (ch : NmrChan α) (k : ℕ) : α :=
  group (noise_spectrum sqrtf ch.refWPS ch.testWPS) k /
    (ch.refExc k / masking_difference k)

/-- The per-frame per-channel NMR: the band average of nmr_band. -/
def nmr_avg (sqrtf : α → α) (group : (ℕ → α) → ℕ → α)
    (masking_difference : ℕ → α) (band_count : ℕ) (ch : NmrChan α) : α :=
  (((List.range band_count).map
    (nmr_band sqrtf group masking_difference ch)).sum) / (band_count : α)

/-- The per-frame per-channel maximum band NMR, accumulated by the running
maximum started at 0 as in the source. -/
def nmr_max (sqrtf : α → α) (group : (ℕ → α) → ℕ → α)
    (masking_difference : ℕ → α) (band_count : ℕ) (ch : NmrChan α) : α :=
  ((List.range band_count).map
    (nmr_band sqrtf group masking_difference ch)).foldl maxStep 0

/-- peaq_mov_nmr from movs.c.  First component: the (value, weight) pushes to
the NMR accumulator, channel by channel — the raw NMR when the accumulator
mode is MODE_AVG_LOG, its dB conversion otherwise.  Second component: the
pushes to the relative-disturbed-frames accumulator when it is given — 1
when the maximum band NMR exceeds ONE_POINT_FIVE_DB_POWER_FACTOR
(= 1.41253754462275), else 0, always with weight 1. -/
def peaq_mov_nmr (sqrtf rlog10 : α → α) (group : (ℕ → α) → ℕ → α)
    (band_count : ℕ) (masking_difference : ℕ → α) (mode : PeaqMovAccumMode)
    (rdf_given : Bool) (chans : List (NmrChan α)) :
    List (α × α) × List (α × α) :=
  (chans.map fun ch =>
    if mode = PeaqMovAccumMode.MODE_AVG_LOG then
      (nmr_avg sqrtf group masking_difference band_count ch, 1)
    else
      (10 * rlog10 (nmr_avg sqrtf group masking_difference band_count ch), 1),
   if rdf_given then
     chans.map fun ch =>
       (if (1.41253754462275 : α) <
           nmr_max sqrtf group masking_difference band_count ch
        then 1 else 0, 1)
   else [])

/-! ## Detection probability (movs.c) -/

/-- Per-channel inputs of peaq_mov_prob_detect: the reference and test
excitation patterns. -/
structure ProbDetectChan (α : Type) where
  refExc : ℕ → α
  testExc : ℕ → α

/-- Truncation toward zero, the trunc of the C library on exact values. -/
def trunc_toward_zero [FloorRing α] (x : α) : α :=
  if 0 ≤ x then ((⌊x⌋ : ℤ) : α) else ((⌈x⌉ : ℤ) : α)

/-- The effective detection step size, (74) in BS.1387 as implemented in
peaq_mov_prob_detect: the polynomial in L for L > 0, otherwise 1e30. -/
def detection_step_size (rpow : α → α → α) (l : α) : α :=
  if 0 < l then
    5.95072 * rpow (6.39468 / l) 1.71332 + 9.01033e-11 * rpow l 4 +
      5.05622e-6 * rpow l 3 - 0.00102438 * l * l + 0.0550197 * l - 0.198719
  else 1e30

/-- Reference excitation in dB for one channel and band. -/
def eref_db (rlog10 : α → α) (ch : ProbDetectChan α) (i : ℕ) : α :=
  10 * rlog10 (ch.refExc i)

/-- Test excitation in dB for one channel and band. -/
def etest_db (rlog10 : α → α) (ch : ProbDetectChan α) (i : ℕ) : α :=
  10 * rlog10 (ch.testExc i)

/-- The asymmetric average excitation L, (73) in BS.1387. -/
def asym_avg_excitation (rlog10 : α → α) (ch : ProbDetectChan α) (i : ℕ) : α :=
  0.3 * max (eref_db rlog10 ch i) (etest_db rlog10 ch i) +
    0.7 * etest_db rlog10 ch i

/-- The per-channel detection probability p_c, (76)/(77) in BS.1387 as
simplified in the source: 1 - 0.5^((e/s)^b) with b = 4 when the reference is
louder, 6 otherwise. -/
def pc_of (rlog10 : α → α) (rpow : α → α → α) (ch : ProbDetectChan α)
    (i : ℕ) : α :=
  let s := detection_step_size rpow (asym_avg_excitation rlog10 ch i)
  let e := eref_db rlog10 ch i - etest_db rlog10 ch i
  let b : α := if etest_db rlog10 ch i < eref_db rlog10 ch i then 4 else 6
  1 - rpow 0.5 (rpow (e / s) b)

/-- The per-channel steps above threshold q_c, (78) in BS.1387 with
USE_FLOOR_FOR_STEPS_ABOVE_THRESHOLD unset: |trunc(e)| / s. -/
def qc_of [FloorRing α] (rlog10 : α → α) (rpow : α → α → α)
    (ch : ProbDetectChan α) (i : ℕ) : α :=
  |trunc_toward_zero (eref_db rlog10 ch i - etest_db rlog10 ch i)| /
    detection_step_size rpow (asym_avg_excitation rlog10 ch i)

/-- The binaural per-band detection probability: the running maximum of p_c
over channels started at 0, as in the source loop. -/
def p_bin (rlog10 : α → α) (rpow : α → α → α)
    (chans : List (ProbDetectChan α)) (i : ℕ) : α :=
  (chans.map fun ch => pc_of rlog10 rpow ch i).foldl maxStep 0

/-- The binaural per-band detection steps: q_c of channel 0 (forced by the
`c == 0` disjunct in the source), then the running maximum over the other
channels. -/
def q_bin [FloorRing α] (rlog10 : α → α) (rpow : α → α → α)
    (chans : List (ProbDetectChan α)) (i : ℕ) : α :=
  match chans.map fun ch => qc_of rlog10 rpow ch i with
  | [] => 0
  | q :: qs => qs.foldl maxStep q

/-- The total binaural detection probability P_bin = 1 - prod_k (1 - p_bin[k]). -/
def P_bin (rlog10 : α → α) (rpow : α → α → α) (band_count : ℕ)
    (chans : List (ProbDetectChan α)) : α :=
  1 - ((List.range band_count).map fun i => 1 - p_bin rlog10 rpow chans i).prod

/-- The total binaural detection steps Q_bin = sum_k q_bin[k]. -/
def Q_bin [FloorRing α] (rlog10 : α → α) (rpow : α → α → α) (band_count : ℕ)
    (chans : List (ProbDetectChan α)) : α :=
  ((List.range band_count).map (q_bin rlog10 rpow chans)).sum

/-- peaq_mov_prob_detect from movs.c.  First component: the push to the ADB
accumulator (channel 0, weight 1), made only when P_bin > 0.5.  Second
component: the unconditional push of P_bin to the MFPD accumulator
(channel 0, weight 1). -/
def peaq_mov_prob_detect [FloorRing α] (rlog10 : α → α) (rpow : α → α → α)
    (band_count : ℕ) (chans : List (ProbDetectChan α)) :
    Option (α × α) × (α × α) :=
  (if (0.5 : α) < P_bin rlog10 rpow band_count chans then
    some (Q_bin rlog10 rpow band_count chans, 1)
   else none,
   (P_bin rlog10 rpow band_count chans, 1))

/-! ## Error harmonic structure (movs.c) -/

/-- The fixed EHS autocorrelation length. -/
def MAXLAG : ℕ := 256

/-- Per-channel inputs of peaq_mov_ehs: the weighted power spectra of
reference and test and the two energy-threshold flags. -/
structure EhsChan (α : Type) where
  refWPS : ℕ → α
  testWPS : ℕ → α
  refFlag : Bool
  testFlag : Bool

/-- The log spectral difference d of peaq_mov_ehs, mapped to 0 when both
spectra vanish at a bin. -/
def ehs_d (rlog : α → α) (ch : EhsChan α) (i : ℕ) : α :=
  if ch.refWPS i = 0 ∧ ch.testWPS i = 0 then 0
  else rlog (ch.testWPS i / ch.refWPS i)

/-- The correlation-like sequence c[i] = sum_k d[k] d[k+i] (k < MAXLAG),
the quantity do_xcorr computes (per its own specification comment) through
the external length-512 real FFT. -/
def ehs_c (rlog : α → α) (ch : EhsChan α) (i : ℕ) : α :=
  ((List.range MAXLAG).map fun k => ehs_d rlog ch k * ehs_d rlog ch (k + i)).sum

/-- The running energy dk of peaq_mov_ehs before processing lag i: started at
c[0] and updated by d[i+MAXLAG]^2 - d[i]^2. -/
def ehs_dk (rlog : α → α) (ch : EhsChan α) : ℕ → α
  | 0 => ehs_c rlog ch 0
  | i + 1 => ehs_dk rlog ch i + ehs_d rlog ch (i + MAXLAG) ^ 2 -
      ehs_d rlog ch i ^ 2

/-- The EHS correlation window with CENTER_EHS_CORRELATION_WINDOW unset (the
source default). -/
def correlation_window (rcos : α → α) (piv : α) (i : ℕ) : α :=
  0.81649658092773 * (1 - rcos (2 * piv * (i : α) / ((MAXLAG : α) - 1))) /
    (MAXLAG : α)

/-- The windowed, normalised correlation of peaq_mov_ehs with
EHS_SUBTRACT_DC_BEFORE_WINDOW unset: c[i] * (window[i] / sqrt(d0 * dk)). -/
def ehs_cw (rlog sqrtf rcos : α → α) (piv : α) (ch : EhsChan α) (i : ℕ) : α :=
  ehs_c rlog ch i *
    (correlation_window rcos piv i / sqrtf (ehs_c rlog ch 0 * ehs_dk rlog ch i))

/-- Squared magnitudes of the external length-MAXLAG FFT of the windowed
correlation, with the DC bin's real part zeroed (the source's equivalent of
subtracting the average after windowing). -/
def ehs_magnitudes (fft : (ℕ → α) → ℕ → α × α) (cw : ℕ → α) (i : ℕ) : α :=
  if i = 0 then (fft cw 0).2 * (fft cw 0).2
  else (fft cw i).1 * (fft cw i).1 + (fft cw i).2 * (fft cw i).2

/-- The peak scan of peaq_mov_ehs: walk the magnitudes from bin 1 to
MAXLAG/2, keeping the largest magnitude that exceeds both its predecessor
and the running maximum. -/
def ehs_peak (mag : ℕ → α) : α :=
  ((List.range' 1 (MAXLAG / 2)).foldl
    (fun p i => (mag i, if p.1 < mag i ∧ p.2 < mag i then mag i else p.2))
    (mag 0, 0)).2

/-- The per-channel EHS value of peaq_mov_ehs. -/
def ehs_value (rlog sqrtf rcos : α → α) (piv : α)
    (fft : (ℕ → α) → ℕ → α × α) (ch : EhsChan α) : α :=
  ehs_peak (ehs_magnitudes fft (ehs_cw rlog sqrtf rcos piv ch))

/-- peaq_mov_ehs from movs.c: when no channel has either energy-threshold
flag set, return without accumulating (empty event list); otherwise push
1000 times the per-channel EHS value with weight 1 for every channel. -/
def peaq_mov_ehs (rlog sqrtf rcos : α → α) (piv : α)
    (fft : (ℕ → α) → ℕ → α × α) (chans : List (EhsChan α)) : List (α × α) :=
  if chans.any fun ch => ch.refFlag || ch.testFlag then
    chans.map fun ch => (1000 * ehs_value rlog sqrtf rcos piv fft ch, 1)
  else []

end FieldDefs

/-! ## Concrete inputs used by witnesses and counterexamples -/

/-- Internal ear noise used by the linear-distortion counterexample. -/
def ce_internal_noise : ℕ → ℚ := fun _ => 4

/-- Channel input for the linear-distortion counterexample: the test
modulation differs from the reference modulation. -/
def ce_lin_dist_chan : LinDistChan ℚ :=
  ⟨fun _ => 0, fun _ => 6, fun _ => 1, fun _ => 1⟩

/-- Reference power spectrum for the bandwidth witness: energy only at
bin 346. -/
def wit_bw_rps : ℕ → ℚ := fun i => if i = 346 then 1 else 0

/-- Test power spectrum for the bandwidth witness: identically zero. -/
def wit_bw_tps : ℕ → ℚ := fun _ => 0

/-! ## Helper lemmas -/

section FoldLemmas

variable {α : Type} [LinearOrderedField α]

theorem maxStep_eq_max (a x : α) : maxStep a x = max a x := by
  unfold maxStep
  rcases lt_or_ge a x with h | h
  · rw [if_pos h, max_eq_right h.le]
  · rw [if_neg (not_lt.mpr h), max_eq_left h]

theorem foldl_maxStep_eq_foldl_max (l : List α) (init : α) :
    l.foldl maxStep init = l.foldl max init := by
  induction l generalizing init with
  | nil => rfl
  | cons x xs ih => simp [List.foldl_cons, maxStep_eq_max, ih]

theorem le_foldl_max (l : List α) (init : α) : init ≤ l.foldl max init := by
  induction l generalizing init with
  | nil => exact le_refl _
  | cons x xs ih => exact le_trans (le_max_left init x) (ih (max init x))

theorem mem_le_foldl_max {l : List α} {x : α} (init : α) (h : x ∈ l) :
    x ≤ l.foldl max init := by
  induction l generalizing init with
  | nil => cases h
  | cons y ys ih =>
    rcases List.mem_cons.mp h with rfl | hmem
    · exact le_trans (le_max_right init x) (le_foldl_max ys (max init x))
    · exact ih (max init y) hmem

theorem foldl_max_le {l : List α} {init b : α} (hinit : init ≤ b)
    (h : ∀ x ∈ l, x ≤ b) : l.foldl max init ≤ b := by
  induction l generalizing init with
  | nil => exact hinit
  | cons y ys ih =>
    exact ih (max_le hinit (h y (List.mem_cons_self _ _))) fun x hx =>
      h x (List.mem_cons_of_mem y hx)

theorem foldl_max_lt {l : List α} {init b : α} (hinit : init < b)
    (h : ∀ x ∈ l, x < b) : l.foldl max init < b := by
  induction l generalizing init with
  | nil => exact hinit
  | cons y ys ih =>
    exact ih (max_lt hinit (h y (List.mem_cons_self _ _))) fun x hx =>
      h x (List.mem_cons_of_mem y hx)

theorem foldl_max_eq_init_or_mem (l : List α) (init : α) :
    l.foldl max init = init ∨ l.foldl max init ∈ l := by
  induction l generalizing init with
  | nil => exact Or.inl rfl
  | cons y ys ih =>
    rcases ih (max init y) with h | h
    · rcases le_total init y with hy | hy
      · right
        rw [List.foldl_cons, h, max_eq_right hy]
        exact (List.mem_cons_self _ _)
      · left
        rw [List.foldl_cons, h, max_eq_left hy]
    · right
      exact List.mem_cons_of_mem y h

theorem foldl_max_gt_iff {l : List α} {init c : α} (hc : init ≤ c) :
    c < l.foldl max init ↔ ∃ x ∈ l, c < x := by
  constructor
  · intro h
    rcases foldl_max_eq_init_or_mem l init with heq | hmem
    · rw [heq] at h
      exact absurd hc (not_le.mpr h)
    · exact ⟨l.foldl max init, hmem, h⟩
  · rintro ⟨x, hx, hcx⟩
    exact lt_of_lt_of_le hcx (mem_le_foldl_max init hx)

theorem foldl_max_mem_of_le {l : List α} {init : α} (hl : l ≠ [])
    (h : ∀ x ∈ l, init ≤ x) : l.foldl max init ∈ l := by
  rcases foldl_max_eq_init_or_mem l init with heq | hmem
  · obtain ⟨y, ys, rfl⟩ := List.exists_cons_of_ne_nil hl
    have h1 : y ≤ (y :: ys).foldl max init :=
      mem_le_foldl_max init (List.mem_cons_self _ _)
    have h2 : init ≤ y := h y (List.mem_cons_self _ _)
    rw [heq] at h1
    have : y = init := le_antisymm h1 h2
    rw [heq, ← this]
    exact (List.mem_cons_self _ _)
  · exact hmem

theorem sum_map_mul_const {β : Type} (k : α) (f : β → α) (l : List β) :
    (l.map fun b => k * f b).sum = k * (l.map f).sum := by
  induction l with
  | nil => simp
  | cons x xs ih => simp [List.map_cons, List.sum_cons, ih, mul_add]

theorem list_prod_nonneg {l : List α} (h : ∀ x ∈ l, 0 ≤ x) : 0 ≤ l.prod := by
  induction l with
  | nil => simp
  | cons x xs ih =>
    rw [List.prod_cons]
    exact mul_nonneg (h x (List.mem_cons_self _ _))
      (ih fun y hy => h y (List.mem_cons_of_mem x hy))

theorem list_prod_pos {l : List α} (h : ∀ x ∈ l, 0 < x) : 0 < l.prod := by
  induction l with
  | nil => simp
  | cons x xs ih =>
    rw [List.prod_cons]
    exact mul_pos (h x (List.mem_cons_self _ _))
      (ih fun y hy => h y (List.mem_cons_of_mem x hy))

theorem list_prod_le_one {l : List α} (h : ∀ x ∈ l, 0 ≤ x ∧ x ≤ 1) :
    l.prod ≤ 1 := by
  induction l with
  | nil => simp
  | cons x xs ih =>
    rw [List.prod_cons]
    have hx := h x (List.mem_cons_self _ _)
    have hxs : ∀ y ∈ xs, 0 ≤ y ∧ y ≤ 1 := fun y hy =>
      h y (List.mem_cons_of_mem x hy)
    calc x * xs.prod ≤ 1 * 1 :=
          mul_le_mul hx.2 (ih hxs) (list_prod_nonneg fun y hy => (hxs y hy).1)
            zero_le_one
    _ = 1 := one_mul 1

end FoldLemmas

section AccumLemmas

variable {σ ι : Type}

theorem accumulate_seq_not_tentative (step : σ → ι → σ) (s sh : σ)
    (l : List ι) :
    peaq_movaccum_accumulate_seq step ⟨s, sh, false⟩ l =
      ⟨l.foldl step s, sh, false⟩ := by
  induction l generalizing s with
  | nil => rfl
  | cons e es ih =>
    simp only [peaq_movaccum_accumulate_seq, List.foldl_cons] at *
    rw [show peaq_movaccum_accumulate step ⟨s, sh, false⟩ e =
      (⟨step s e, sh, false⟩ : PeaqMovAccum σ) from rfl]
    exact ih (step s e)

theorem accumulate_seq_tentative (step : σ → ι → σ) (s sh : σ) (l : List ι) :
    peaq_movaccum_accumulate_seq step ⟨s, sh, true⟩ l =
      ⟨s, l.foldl step sh, true⟩ := by
  induction l generalizing sh with
  | nil => rfl
  | cons e es ih =>
    simp only [peaq_movaccum_accumulate_seq, List.foldl_cons] at *
    rw [show peaq_movaccum_accumulate step ⟨s, sh, true⟩ e =
      (⟨s, step sh e, true⟩ : PeaqMovAccum σ) from rfl]
    exact ih (step sh e)

end AccumLemmas

section BwLemmas

theorem bw_search_isLargestHit (hit : ℕ → Bool) :
    ∀ n, IsLargestHit hit n (bw_search hit n) := by
  intro n
  induction n with
  | zero =>
    exact Or.inl ⟨rfl, fun i h1 h0 => absurd (h1.trans h0) (by omega)⟩
  | succ n ih =>
    by_cases h : hit n = true
    · have heq : bw_search hit (n + 1) = n + 1 := by simp [bw_search, h]
      right
      rw [heq]
      refine ⟨by omega, le_refl _, by simpa using h, fun i hgt hle => by omega⟩
    · have hfalse : hit n = false := by
        cases hhit : hit n
        · rfl
        · exact absurd hhit h
      have hstep : bw_search hit (n + 1) = bw_search hit n := by
        simp [bw_search, hfalse]
      rw [hstep]
      rcases ih with ⟨hz, hnone⟩ | ⟨h1, h2, h3, h4⟩
      · left
        refine ⟨hz, fun i hi1 hi2 => ?_⟩
        rcases Nat.lt_or_ge i (n + 1) with hlt | hge
        · exact hnone i hi1 (by omega)
        · have : i = n + 1 := by omega
          simpa [this] using hfalse
      · right
        refine ⟨h1, by omega, h3, fun i hgt hle => ?_⟩
        rcases Nat.lt_or_ge i (n + 1) with hlt | hge
        · exact h4 i hgt (by omega)
        · have : i = n + 1 := by omega
          simpa [this] using hfalse

end BwLemmas

section ScaleLemmas

variable {α : Type} [LinearOrderedField α]

theorem sum_weights_scale (k : α) (l : List (α × α)) :
    sum_weights (l.map fun p => (p.1, k * p.2)) = k * sum_weights l := by
  induction l with
  | nil => simp [sum_weights]
  | cons p ps ih =>
    simp only [sum_weights, List.map_cons, List.sum_cons] at ih ⊢
    rw [ih]
    ring

theorem sum_weighted_values_scale (k : α) (l : List (α × α)) :
    sum_weighted_values (l.map fun p => (p.1, k * p.2)) =
      k * sum_weighted_values l := by
  induction l with
  | nil => simp [sum_weighted_values]
  | cons p ps ih =>
    simp only [sum_weighted_values, List.map_cons, List.sum_cons] at ih ⊢
    rw [ih]
    ring

theorem sum_sq_weights_scale (k : α) (l : List (α × α)) :
    sum_sq_weights (l.map fun p => (p.1, k * p.2)) = k ^ 2 * sum_sq_weights l := by
  induction l with
  | nil => simp [sum_sq_weights]
  | cons p ps ih =>
    simp only [sum_sq_weights, List.map_cons, List.sum_cons] at ih ⊢
    rw [ih]
    ring

theorem sum_sq_weighted_sq_scale (k : α) (l : List (α × α)) :
    sum_sq_weighted_sq (l.map fun p => (p.1, k * p.2)) =
      k ^ 2 * sum_sq_weighted_sq l := by
  induction l with
  | nil => simp [sum_sq_weighted_sq]
  | cons p ps ih =>
    simp only [sum_sq_weighted_sq, List.map_cons, List.sum_cons] at ih ⊢
    rw [ih]
    ring

theorem avg_value_scale {k : α} (hk : k ≠ 0) (l : List (α × α)) :
    avg_value (l.map fun p => (p.1, k * p.2)) = avg_value l := by
  unfold avg_value
  rw [sum_weights_scale, sum_weighted_values_scale, mul_div_mul_left _ _ hk]

theorem rms_arg_scale {k : α} (hk : k ≠ 0) (l : List (α × α)) :
    sum_sq_weighted_sq (l.map fun p => (p.1, k * p.2)) /
      sum_sq_weights (l.map fun p => (p.1, k * p.2)) =
    sum_sq_weighted_sq l / sum_sq_weights l := by
  rw [sum_sq_weights_scale, sum_sq_weighted_sq_scale,
    mul_div_mul_left _ _ (pow_ne_zero 2 hk)]

end ScaleLemmas

section ZeroThresholdLemmas

variable {α : Type} [LinearOrderedField α]

theorem zero_threshold_eq_foldl_max (tps : ℕ → α) :
    zero_threshold tps = ((List.range' 922 102).map tps).foldl max (tps 921) := by
  unfold zero_threshold
  congr 1
  funext a x
  rcases le_or_lt a x with h | h
  · rw [if_pos h, max_eq_right h]
  · rw [if_neg (not_le.mpr h), max_eq_left h.le]

theorem zero_threshold_is_ub (tps : ℕ → α) :
    ∀ i, 921 ≤ i → i ≤ 1023 → tps i ≤ zero_threshold tps := by
  intro i h1 h2
  rw [zero_threshold_eq_foldl_max]
  rcases eq_or_lt_of_le h1 with heq | hlt
  · rw [← heq]
    exact le_foldl_max _ _
  · exact mem_le_foldl_max _
      (List.mem_map.mpr ⟨i, List.mem_range'_1.mpr ⟨by omega, by omega⟩, rfl⟩)

theorem zero_threshold_attained (tps : ℕ → α) :
    ∃ i, 921 ≤ i ∧ i ≤ 1023 ∧ zero_threshold tps = tps i := by
  rw [zero_threshold_eq_foldl_max]
  rcases foldl_max_eq_init_or_mem ((List.range' 922 102).map tps) (tps 921)
    with h | h
  · exact ⟨921, le_refl _, by omega, h⟩
  · obtain ⟨i, hi, hval⟩ := List.mem_map.mp h
    have hb := List.mem_range'_1.mp hi
    exact ⟨i, by omega, by omega, hval.symm⟩

end ZeroThresholdLemmas

/-! ## Claim theorems -/

/-- Claim C2: for every accumulator (any mode, modelled by an arbitrary
per-channel statistics type with its step function and readout), any prefix P
and suffix T of accumulations, accumulating P, setting tentative, accumulating
T and clearing tentative yields exactly the same get_value result as
accumulating P ++ T directly in order. -/
theorem tentative_commit_order_preserving {σ ι β : Type} (step : σ → ι → σ)
    (s0 : σ) (f : σ → β) (P T : List ι) :
    peaq_movaccum_read f
      (peaq_movaccum_set_tentative
        (peaq_movaccum_accumulate_seq step
          (peaq_movaccum_set_tentative
            (peaq_movaccum_accumulate_seq step (peaq_movaccum_new s0) P) true)
          T) false) =
    peaq_movaccum_read f
      (peaq_movaccum_accumulate_seq step (peaq_movaccum_new s0) (P ++ T)) := by
  rw [show peaq_movaccum_new s0 = (⟨s0, s0, false⟩ : PeaqMovAccum σ) from rfl,
    accumulate_seq_not_tentative,
    show peaq_movaccum_set_tentative
      (⟨P.foldl step s0, s0, false⟩ : PeaqMovAccum σ) true =
      ⟨P.foldl step s0, P.foldl step s0, true⟩ from rfl,
    accumulate_seq_tentative,
    show peaq_movaccum_set_tentative
      (⟨P.foldl step s0, T.foldl step (P.foldl step s0), true⟩ :
        PeaqMovAccum σ) false =
      ⟨T.foldl step (P.foldl step s0), T.foldl step (P.foldl step s0),
        false⟩ from rfl,
    accumulate_seq_not_tentative]
  simp [peaq_movaccum_read, List.foldl_append]

/-- Claim C7: an accumulator in ADB mode returns from get_value 0 when the
total accumulated weight is 0, -0.5 when the total weighted sum is 0 with
nonzero total weight, and log10 of the weighted average otherwise (ADB reads
channel 0 only). -/
theorem adb_get_value_cases {α : Type} [LinearOrderedField α]
    (sqrtf rlog10 : α → α) (chans : List (List (α × α))) :
    (sum_weights (chans.headD []) = 0 →
      peaq_movaccum_get_value sqrtf rlog10 PeaqMovAccumMode.MODE_ADB chans = 0) ∧
    (sum_weights (chans.headD []) ≠ 0 →
      sum_weighted_values (chans.headD []) = 0 →
      peaq_movaccum_get_value sqrtf rlog10 PeaqMovAccumMode.MODE_ADB chans =
        -(1 / 2)) ∧
    (sum_weights (chans.headD []) ≠ 0 →
      sum_weighted_values (chans.headD []) ≠ 0 →
      peaq_movaccum_get_value sqrtf rlog10 PeaqMovAccumMode.MODE_ADB chans =
        rlog10 (sum_weighted_values (chans.headD []) /
          sum_weights (chans.headD []))) := by
  refine ⟨fun h => ?_, fun h1 h2 => ?_, fun h1 h2 => ?_⟩
  · show adb_value rlog10 (chans.headD []) = 0
    rw [adb_value, if_pos h]
  · show adb_value rlog10 (chans.headD []) = -(1 / 2)
    rw [adb_value, if_neg h1, if_pos h2]
  · show adb_value rlog10 (chans.headD []) =
      rlog10 (sum_weighted_values (chans.headD []) / sum_weights (chans.headD []))
    rw [adb_value, if_neg h1, if_neg h2]

/-- Witness for C7: the spec's ADB scenario (10, 100, 1000 with unit weights)
lands in the third case; with the identity as log10 the result is 1110/3
= 370. -/
theorem adb_get_value_cases_witness :
    peaq_movaccum_get_value (fun x : ℚ => x) (fun x => x)
      PeaqMovAccumMode.MODE_ADB [[(10, 1), (100, 1), (1000, 1)]] = 370 := by
  have h := (adb_get_value_cases (fun x : ℚ => x) (fun x => x)
    [[(10, 1), (100, 1), (1000, 1)]]).2.2
  have h1 : sum_weights (([[((10 : ℚ), (1 : ℚ)), (100, 1), (1000, 1)]]).headD []) = 3 := by
    norm_num [sum_weights]
  have h2 : sum_weighted_values
      (([[((10 : ℚ), (1 : ℚ)), (100, 1), (1000, 1)]]).headD []) = 1110 := by
    norm_num [sum_weighted_values]
  refine (h (by rw [h1]; norm_num) (by rw [h2]; norm_num)).trans ?_
  rw [h1, h2]
  norm_num

/-- Claim C1 (amended): under the pinned no-swap configuration
(SWAP_MOD_PATTS_FOR_NOISE_LOUDNESS_MOVS unset), peaq_mov_lin_dist
accumulates, for every channel with weight 1, the value
noise_loudness(1.5, 0.15, 1, 0, modRef, modTest, adaptedRef, excRef): the
reference modulation fills the sRef slot but the test signal's modulation
fills the sTest slot; the excitation slots are the adapted reference
pattern and the raw reference excitation. -/
theorem mov_lin_dist_accumulates {α : Type} [LinearOrderedField α]
    (rexp : α → α) (rpow : α → α → α) (band_count : ℕ)
    (internal_noise : ℕ → α) (chans : List (LinDistChan α)) :
    peaq_mov_lin_dist rexp rpow band_count internal_noise chans =
      chans.map fun ch =>
        (calc_noise_loudness rexp rpow 1.5 0.15 1 0 band_count internal_noise
          ch.refMod ch.testMod ch.adaptedRef ch.excRef, 1) := rfl

/-- Counterexample to claim C1 as stated: in the no-swap configuration the
value peaq_mov_lin_dist accumulates is not the noise loudness computed with
the reference modulation in both modulation slots — exhibited on a single
band with reference modulation 0 and test modulation 6 (the accumulated
value is 864/95, the claim's both-reference value is 0). -/
theorem mov_lin_dist_claim_counterexample :
    peaq_mov_lin_dist (fun _ : ℚ => 1) (fun x _ => x) 1 ce_internal_noise
        [ce_lin_dist_chan] ≠
      [(calc_noise_loudness (fun _ : ℚ => 1) (fun x _ => x) 1.5 0.15 1 0 1
          ce_internal_noise ce_lin_dist_chan.refMod ce_lin_dist_chan.refMod
          ce_lin_dist_chan.adaptedRef ce_lin_dist_chan.excRef, 1)] := by
  have h1 : calc_noise_loudness (fun _ : ℚ => 1) (fun x _ => x) 1.5 0.15 1 0 1
      ce_internal_noise ce_lin_dist_chan.refMod ce_lin_dist_chan.testMod
      ce_lin_dist_chan.adaptedRef ce_lin_dist_chan.excRef = 864 / 95 := by
    norm_num [calc_noise_loudness, noise_loudness_term, noise_loudness_num,
      ce_internal_noise, ce_lin_dist_chan, List.range_succ, List.range_zero, max_def]
  have h2 : calc_noise_loudness (fun _ : ℚ => 1) (fun x _ => x) 1.5 0.15 1 0 1
      ce_internal_noise ce_lin_dist_chan.refMod ce_lin_dist_chan.refMod
      ce_lin_dist_chan.adaptedRef ce_lin_dist_chan.excRef = 0 := by
    norm_num [calc_noise_loudness, noise_loudness_term, noise_loudness_num,
      ce_internal_noise, ce_lin_dist_chan, List.range_succ, List.range_zero, max_def]
  intro heq
  simp only [peaq_mov_lin_dist, List.map_cons, List.map_nil, h1, h2] at heq
  have : (864 / 95 : ℚ) = 0 := (Prod.mk.injEq _ _ _ _).mp
    (List.cons_eq_cons.mp heq).1 |>.1
  norm_num at this

/-- Claim C3: peaq_mov_bandwidth accumulates into the two bandwidth
accumulators exactly when bw_ref > 346, where the zero threshold is the
maximum of the test power spectrum over bins 921..1023, bw_ref is the largest
i in [1, 921] with reference spectrum at bin i-1 strictly above 10 times the
zero threshold (0 when none), and on accumulation it pushes bw_ref and
bw_test with weight 1, bw_test being the largest i in [1, bw_ref] with test
spectrum at bin i-1 at least the source's 10^(5/10) constant times the zero
threshold (0 when none); otherwise neither accumulator receives anything. -/
theorem mov_bandwidth_gate {α : Type} [LinearOrderedField α] (rps tps : ℕ → α) :
    (∀ i, 921 ≤ i → i ≤ 1023 → tps i ≤ zero_threshold tps) ∧
    (∃ i, 921 ≤ i ∧ i ≤ 1023 ∧ zero_threshold tps = tps i) ∧
    IsLargestHit (fun i => decide (10 * zero_threshold tps < rps i)) 921
      (bandwidth_ref rps tps) ∧
    (peaq_mov_bandwidth rps tps = none ↔ bandwidth_ref rps tps ≤ 346) ∧
    (346 < bandwidth_ref rps tps →
      peaq_mov_bandwidth rps tps =
        some ((((bandwidth_ref rps tps : ℕ) : α), 1),
          (((bandwidth_test rps tps : ℕ) : α), 1)) ∧
      IsLargestHit
        (fun i => decide ((3.16227766016838 : α) * zero_threshold tps ≤ tps i))
        (bandwidth_ref rps tps) (bandwidth_test rps tps)) := by
  refine ⟨zero_threshold_is_ub tps, zero_threshold_attained tps,
    bw_search_isLargestHit _ 921, ?_, ?_⟩
  · unfold peaq_mov_bandwidth
    by_cases h : 346 < bandwidth_ref rps tps
    · rw [if_pos h]
      constructor
      · intro hx
        exact absurd hx (by simp)
      · intro hx
        omega
    · rw [if_neg h]
      simp only [true_iff]
      omega
  · intro h
    refine ⟨?_, bw_search_isLargestHit _ _⟩
    unfold peaq_mov_bandwidth
    rw [if_pos h]

/-- The zero threshold of the bandwidth witness frame vanishes. -/
theorem wit_bw_zt : zero_threshold wit_bw_tps = 0 := by
  rw [zero_threshold_eq_foldl_max]
  have hgen : ∀ l : List ℕ, (l.map wit_bw_tps).foldl max (wit_bw_tps 921) = 0 := by
    intro l
    induction l with
    | nil => rfl
    | cons x xs ih =>
      simpa [wit_bw_tps, List.map_cons, List.foldl_cons, max_self] using ih
  exact hgen _

/-- The reference bandwidth of the witness frame is 347 (its only energetic
bin is 346, read by the search at i = 347). -/
theorem wit_bw_ref : bandwidth_ref wit_bw_rps wit_bw_tps = 347 := by
  have hhit : ∀ j,
      (fun i => decide ((10 : ℚ) * zero_threshold wit_bw_tps < wit_bw_rps i)) j =
        true ↔ j = 346 := by
    intro j
    simp only [wit_bw_zt, mul_zero, decide_eq_true_eq, wit_bw_rps]
    by_cases hj : j = 346
    · simp only [hj, if_pos rfl]
      norm_num
    · simp only [if_neg hj]
      constructor
      · intro hc
        exact absurd hc (by norm_num)
      · intro hc
        exact absurd hc hj
  unfold bandwidth_ref
  rcases bw_search_isLargestHit
      (fun i => decide ((10 : ℚ) * zero_threshold wit_bw_tps < wit_bw_rps i)) 921
    with ⟨hz, hnone⟩ | ⟨h1, h2, h3, h4⟩
  · exfalso
    have hf := hnone 347 (by omega) (by omega)
    have ht := (hhit 346).mpr rfl
    rw [show (347 : ℕ) - 1 = 346 from rfl] at hf
    rw [ht] at hf
    exact Bool.noConfusion hf
  · have := (hhit _).mp h3
    omega

/-- The test bandwidth of the witness frame is also 347: every test bin sits
at the (vanishing) five-dB threshold. -/
theorem wit_bw_test : bandwidth_test wit_bw_rps wit_bw_tps = 347 := by
  have hhit : ∀ j,
      (fun i => decide ((3.16227766016838 : ℚ) * zero_threshold wit_bw_tps ≤
        wit_bw_tps i)) j = true := by
    intro j
    simp [wit_bw_zt, wit_bw_tps]
  unfold bandwidth_test
  rw [wit_bw_ref]
  rcases bw_search_isLargestHit
      (fun i => decide ((3.16227766016838 : ℚ) * zero_threshold wit_bw_tps ≤
        wit_bw_tps i)) 347
    with ⟨hz, hnone⟩ | ⟨h1, h2, h3, h4⟩
  · exfalso
    have hf := hnone 1 (le_refl _) (by omega)
    rw [hhit 0] at hf
    exact Bool.noConfusion hf
  · rcases Nat.lt_or_ge (bw_search
        (fun i => decide ((3.16227766016838 : ℚ) * zero_threshold wit_bw_tps ≤
          wit_bw_tps i)) 347) 347 with hlt | hge
    · exfalso
      have hf := h4 347 (by omega) (by omega)
      rw [show (347 : ℕ) - 1 = 346 from rfl, hhit 346] at hf
      exact Bool.noConfusion hf
    · omega

/-- Witness for C3: a frame whose only energetic reference bin is 346 passes
the gate (bw_ref = 347 > 346) and pushes 347 to both accumulators with
weight 1. -/
theorem mov_bandwidth_gate_witness :
    peaq_mov_bandwidth wit_bw_rps wit_bw_tps =
      some (((347 : ℚ), 1), ((347 : ℚ), 1)) := by
  have h := (mov_bandwidth_gate wit_bw_rps wit_bw_tps).2.2.2.2
    (by rw [wit_bw_ref]; omega)
  rw [h.1, wit_bw_ref, wit_bw_test]
  norm_num

/-- Claim C5: peaq_mov_nmr pushes the raw per-frame NMR with weight 1 when
the NMR accumulator's mode is MODE_AVG_LOG and the dB conversion
10 log10(nmr) with weight 1 for any other mode; when the
relative-disturbed-frames accumulator is given it receives 1 with weight 1
exactly when the per-frame maximum band NMR exceeds the source's
10^(1.5/10) constant 1.41253754462275, and 0 with weight 1 otherwise. -/
theorem mov_nmr_modes {α : Type} [LinearOrderedField α] (sqrtf rlog10 : α → α)
    (group : (ℕ → α) → ℕ → α) (band_count : ℕ) (masking_difference : ℕ → α)
    (mode : PeaqMovAccumMode) (rdf_given : Bool) (chans : List (NmrChan α)) :
    (mode = PeaqMovAccumMode.MODE_AVG_LOG →
      (peaq_mov_nmr sqrtf rlog10 group band_count masking_difference mode
        rdf_given chans).1 =
        chans.map fun ch =>
          (nmr_avg sqrtf group masking_difference band_count ch, 1)) ∧
    (mode ≠ PeaqMovAccumMode.MODE_AVG_LOG →
      (peaq_mov_nmr sqrtf rlog10 group band_count masking_difference mode
        rdf_given chans).1 =
        chans.map fun ch =>
          (10 * rlog10 (nmr_avg sqrtf group masking_difference band_count ch),
            1)) ∧
    (rdf_given = true →
      (peaq_mov_nmr sqrtf rlog10 group band_count masking_difference mode
        rdf_given chans).2 =
        chans.map fun ch =>
          (if (1.41253754462275 : α) <
              nmr_max sqrtf group masking_difference band_count ch
           then 1 else 0, 1)) ∧
    (∀ ch : NmrChan α,
      ((if (1.41253754462275 : α) <
          nmr_max sqrtf group masking_difference band_count ch
        then (1 : α) else 0) = 1 ↔
        ∃ k, k < band_count ∧
          (1.41253754462275 : α) <
            nmr_band sqrtf group masking_difference ch k)) := by
  refine ⟨fun hm => ?_, fun hm => ?_, fun hr => ?_, fun ch => ?_⟩
  · subst hm
    unfold peaq_mov_nmr
    simp
  · unfold peaq_mov_nmr
    simp only []
    refine List.map_congr_left fun ch _ => ?_
    rw [if_neg hm]
  · subst hr
    unfold peaq_mov_nmr
    simp
  · have hkey : (1.41253754462275 : α) <
        nmr_max sqrtf group masking_difference band_count ch ↔
        ∃ k, k < band_count ∧
          (1.41253754462275 : α) <
            nmr_band sqrtf group masking_difference ch k := by
      unfold nmr_max
      rw [foldl_maxStep_eq_foldl_max,
        foldl_max_gt_iff (by norm_num : (0 : α) ≤ 1.41253754462275)]
      constructor
      · rintro ⟨x, hx, hlt⟩
        obtain ⟨k, hk, rfl⟩ := List.mem_map.mp hx
        exact ⟨k, List.mem_range.mp hk, hlt⟩
      · rintro ⟨k, hk, hlt⟩
        exact ⟨_, List.mem_map.mpr ⟨k, List.mem_range.mpr hk, rfl⟩, hlt⟩
    by_cases h : (1.41253754462275 : α) <
        nmr_max sqrtf group masking_difference band_count ch
    · rw [if_pos h]
      exact iff_of_true rfl (hkey.mp h)
    · rw [if_neg h]
      exact iff_of_false (by norm_num) fun hex => h (hkey.mpr hex)

/-- Witness for C5: a one-band frame with identical weighted spectra has zero
noise, so in MODE_AVG_LOG the raw NMR 0 is pushed with weight 1. -/
theorem mov_nmr_modes_witness :
    (peaq_mov_nmr (fun x : ℚ => x) (fun x => x) (fun f => f) 1 (fun _ => 1)
        PeaqMovAccumMode.MODE_AVG_LOG true
        [⟨fun _ => 1, fun _ => 1, fun _ => 1⟩]).1 = [(0, 1)] := by
  have h := (mov_nmr_modes (fun x : ℚ => x) (fun x => x) (fun f => f) 1
    (fun _ => 1) PeaqMovAccumMode.MODE_AVG_LOG true
    [⟨fun _ => 1, fun _ => 1, fun _ => 1⟩]).1 rfl
  rw [h]
  norm_num [nmr_avg, nmr_band, noise_spectrum, List.range_succ, List.range_zero]

/-- Claim C6: peaq_mov_ehs returns without accumulating exactly when no
channel has either energy-threshold flag set; when at least one flag is set,
exactly one value — 1000 times the EHS peak — is accumulated with weight 1
for every channel. -/
theorem mov_ehs_gating {α : Type} [LinearOrderedField α]
    (rlog sqrtf rcos : α → α) (piv : α) (fft : (ℕ → α) → ℕ → α × α)
    (chans : List (EhsChan α)) :
    (peaq_mov_ehs rlog sqrtf rcos piv fft chans = [] ↔
      ∀ ch ∈ chans, ch.refFlag = false ∧ ch.testFlag = false) ∧
    ((∃ ch ∈ chans, ch.refFlag = true ∨ ch.testFlag = true) →
      peaq_mov_ehs rlog sqrtf rcos piv fft chans =
        chans.map fun ch => (1000 * ehs_value rlog sqrtf rcos piv fft ch, 1)) := by
  unfold peaq_mov_ehs
  by_cases h : chans.any fun ch => ch.refFlag || ch.testFlag
  · rw [if_pos h]
    obtain ⟨ch0, hch0, hflag⟩ := List.any_eq_true.mp h
    have hne : chans ≠ [] := by
      intro hc
      rw [hc] at hch0
      exact absurd hch0 (List.not_mem_nil _)
    constructor
    · constructor
      · intro hmap
        exact absurd (List.map_eq_nil_iff.mp hmap) hne
      · intro hall
        have hboth := hall ch0 hch0
        rw [hboth.1, hboth.2] at hflag
        exact Bool.noConfusion hflag
    · intro _
      rfl
  · rw [if_neg h]
    have hall : ∀ ch ∈ chans, ch.refFlag = false ∧ ch.testFlag = false := by
      intro ch hch
      rw [List.any_eq_true] at h
      push_neg at h
      have hor := h ch hch
      cases hr : ch.refFlag <;> cases ht : ch.testFlag <;>
        simp_all
    constructor
    · exact iff_of_true rfl hall
    · rintro ⟨ch, hch, hor⟩
      exfalso
      have hboth := hall ch hch
      rcases hor with h1 | h1
      · rw [hboth.1] at h1
        exact Bool.noConfusion h1
      · rw [hboth.2] at h1
        exact Bool.noConfusion h1

/-- Witness for C6: a single channel whose reference flag is set passes the
gate, and exactly one accumulation is made. -/
theorem mov_ehs_gating_witness :
    (peaq_mov_ehs (fun x : ℚ => x) (fun x => x) (fun x => x) 0
      (fun _ _ => (0, 0)) [⟨fun _ => 0, fun _ => 0, true, false⟩]).length = 1 := by
  have h := (mov_ehs_gating (fun x : ℚ => x) (fun x => x) (fun x => x) 0
    (fun _ _ => (0, 0)) [⟨fun _ => 0, fun _ => 0, true, false⟩]).2
    ⟨⟨fun _ => 0, fun _ => 0, true, false⟩, by simp, Or.inl rfl⟩
  rw [h, List.length_map]
  rfl

/-- Claim C8: calc_noise_loudness returns 0 whenever the band sum scaled by
24/Z is strictly below NLmin and the scaled sum unchanged otherwise; with
identical reference and test modulation and excitation inputs the per-band
numerator is 0 in every band and the function returns 0. -/
theorem calc_noise_loudness_clamp (alpha thres_fac S0 NLmin : ℝ)
    (band_count : ℕ)
    (internal_noise ref_modulation test_modulation ref_excitation
      test_excitation : ℕ → ℝ) :
    (((List.range band_count).map
        (noise_loudness_term Real.exp (fun x y => x ^ y) alpha thres_fac S0
          internal_noise ref_modulation test_modulation ref_excitation
          test_excitation)).sum * (24 / (band_count : ℝ)) < NLmin →
      calc_noise_loudness Real.exp (fun x y => x ^ y) alpha thres_fac S0 NLmin
        band_count internal_noise ref_modulation test_modulation
        ref_excitation test_excitation = 0) ∧
    (NLmin ≤ ((List.range band_count).map
        (noise_loudness_term Real.exp (fun x y => x ^ y) alpha thres_fac S0
          internal_noise ref_modulation test_modulation ref_excitation
          test_excitation)).sum * (24 / (band_count : ℝ)) →
      calc_noise_loudness Real.exp (fun x y => x ^ y) alpha thres_fac S0 NLmin
        band_count internal_noise ref_modulation test_modulation
        ref_excitation test_excitation =
        ((List.range band_count).map
          (noise_loudness_term Real.exp (fun x y => x ^ y) alpha thres_fac S0
            internal_noise ref_modulation test_modulation ref_excitation
            test_excitation)).sum * (24 / (band_count : ℝ))) ∧
    (test_modulation = ref_modulation → test_excitation = ref_excitation →
      (∀ k, noise_loudness_num thres_fac S0 ref_modulation test_modulation
        ref_excitation test_excitation k = 0) ∧
      calc_noise_loudness Real.exp (fun x y => x ^ y) alpha thres_fac S0 NLmin
        band_count internal_noise ref_modulation test_modulation
        ref_excitation test_excitation = 0) := by
  refine ⟨fun h => ?_, fun h => ?_, fun hm he => ?_⟩
  · simp only [calc_noise_loudness]
    rw [if_pos h]
  · simp only [calc_noise_loudness]
    rw [if_neg (not_lt.mpr h)]
  · subst hm
    subst he
    have hnum : ∀ k, noise_loudness_num thres_fac S0 test_modulation
        test_modulation test_excitation test_excitation k = 0 := by
      intro k
      simp [noise_loudness_num, sub_self, max_self]
    refine ⟨hnum, ?_⟩
    have hterm : ∀ k, noise_loudness_term Real.exp (fun x y => x ^ y) alpha
        thres_fac S0 internal_noise test_modulation test_modulation
        test_excitation test_excitation k = 0 := by
      intro k
      simp only [noise_loudness_term, hnum, zero_div, add_zero, Real.one_rpow,
        sub_self, mul_zero]
    have hsum : ((List.range band_count).map
        (noise_loudness_term Real.exp (fun x y => x ^ y) alpha thres_fac S0
          internal_noise test_modulation test_modulation test_excitation
          test_excitation)).sum = 0 := by
      apply List.sum_eq_zero
      intro x hx
      obtain ⟨k, _, rfl⟩ := List.mem_map.mp hx
      exact hterm k
    simp only [calc_noise_loudness, hsum, zero_mul]
    split <;> rfl

/-- Witness for C8: at identical reference and test inputs on one band, the
linear-distortion parameter set yields exactly 0. -/
theorem calc_noise_loudness_clamp_witness :
    calc_noise_loudness Real.exp (fun x y => x ^ y) 1.5 0.15 1 0 1
      (fun _ => 1) (fun _ => 0) (fun _ => 0) (fun _ => 1) (fun _ => 1) = 0 :=
  ((calc_noise_loudness_clamp 1.5 0.15 1 0 1 (fun _ => 1) (fun _ => 0)
    (fun _ => 0) (fun _ => 1) (fun _ => 1)).2.2 rfl rfl).2

/-- Detection probabilities 1 - 0.5^(u^b) with an even exponent b (4 or 6)
lie in [0, 1). -/
theorem det_prob_bounds (u b : ℝ) (hb : b = 4 ∨ b = 6) :
    0 ≤ 1 - (0.5 : ℝ) ^ (u ^ b) ∧ 1 - (0.5 : ℝ) ^ (u ^ b) < 1 := by
  have ht : 0 ≤ u ^ b := by
    rcases hb with rfl | rfl
    · rw [show (4 : ℝ) = ((4 : ℕ) : ℝ) by norm_num, Real.rpow_natCast]
      have h4 : u ^ (4 : ℕ) = (u ^ 2) ^ 2 := by ring
      rw [h4]
      exact sq_nonneg _
    · rw [show (6 : ℝ) = ((6 : ℕ) : ℝ) by norm_num, Real.rpow_natCast]
      have h6 : u ^ (6 : ℕ) = (u ^ 3) ^ 2 := by ring
      rw [h6]
      exact sq_nonneg _
  constructor
  · have h1 := Real.rpow_le_one (by norm_num : (0 : ℝ) ≤ 0.5) (by norm_num) ht
    linarith
  · have h2 := Real.rpow_pos_of_pos (by norm_num : (0 : ℝ) < 0.5) (u ^ b)
    linarith

/-- At the real instantiation every per-channel detection probability lies in
[0, 1): the exponent b is 4 or 6, hence even, so (e/s)^b is nonnegative. -/
theorem pc_of_bounds (ch : ProbDetectChan ℝ) (i : ℕ) :
    0 ≤ pc_of (fun x => Real.log x / Real.log 10) (fun x y => x ^ y) ch i ∧
    pc_of (fun x => Real.log x / Real.log 10) (fun x y => x ^ y) ch i < 1 :=
  det_prob_bounds
    ((eref_db (fun x => Real.log x / Real.log 10) ch i -
        etest_db (fun x => Real.log x / Real.log 10) ch i) /
      detection_step_size (fun x y => x ^ y)
        (asym_avg_excitation (fun x => Real.log x / Real.log 10) ch i))
    (if etest_db (fun x => Real.log x / Real.log 10) ch i <
        eref_db (fun x => Real.log x / Real.log 10) ch i then (4 : ℝ) else 6)
    (by split <;> simp)

theorem p_bin_nonneg (chans : List (ProbDetectChan ℝ)) (i : ℕ) :
    0 ≤ p_bin (fun x => Real.log x / Real.log 10) (fun x y => x ^ y) chans i := by
  unfold p_bin
  rw [foldl_maxStep_eq_foldl_max]
  exact le_foldl_max _ _

theorem p_bin_lt_one (chans : List (ProbDetectChan ℝ)) (i : ℕ) :
    p_bin (fun x => Real.log x / Real.log 10) (fun x y => x ^ y) chans i < 1 := by
  unfold p_bin
  rw [foldl_maxStep_eq_foldl_max]
  apply foldl_max_lt (by norm_num)
  intro x hx
  obtain ⟨ch, _, rfl⟩ := List.mem_map.mp hx
  exact (pc_of_bounds ch i).2

theorem p_bin_is_max {chans : List (ProbDetectChan ℝ)} (hne : chans ≠ [])
    (i : ℕ) :
    p_bin (fun x => Real.log x / Real.log 10) (fun x y => x ^ y) chans i ∈
        chans.map (fun ch =>
          pc_of (fun x => Real.log x / Real.log 10) (fun x y => x ^ y) ch i) ∧
      ∀ p ∈ chans.map (fun ch =>
          pc_of (fun x => Real.log x / Real.log 10) (fun x y => x ^ y) ch i),
        p ≤ p_bin (fun x => Real.log x / Real.log 10) (fun x y => x ^ y)
          chans i := by
  unfold p_bin
  rw [foldl_maxStep_eq_foldl_max]
  constructor
  · apply foldl_max_mem_of_le
    · simp only [ne_eq, List.map_eq_nil_iff]
      exact hne
    · intro x hx
      obtain ⟨ch, _, rfl⟩ := List.mem_map.mp hx
      exact (pc_of_bounds ch i).1
  · intro p hp
    exact mem_le_foldl_max _ hp

theorem q_bin_is_max {α : Type} [LinearOrderedField α] [FloorRing α]
    (rlog10 : α → α) (rpow : α → α → α) {chans : List (ProbDetectChan α)}
    (hne : chans ≠ []) (i : ℕ) :
    q_bin rlog10 rpow chans i ∈
        chans.map (fun ch => qc_of rlog10 rpow ch i) ∧
      ∀ q ∈ chans.map (fun ch => qc_of rlog10 rpow ch i),
        q ≤ q_bin rlog10 rpow chans i := by
  obtain ⟨c0, cs, rfl⟩ := List.exists_cons_of_ne_nil hne
  simp only [q_bin, List.map_cons]
  rw [foldl_maxStep_eq_foldl_max]
  constructor
  · rcases foldl_max_eq_init_or_mem (cs.map fun ch => qc_of rlog10 rpow ch i)
        (qc_of rlog10 rpow c0 i) with h | h
    · rw [h]
      exact List.mem_cons_self _ _
    · exact List.mem_cons_of_mem _ h
  · intro q hq
    rcases List.mem_cons.mp hq with rfl | hmem
    · exact le_foldl_max _ _
    · exact mem_le_foldl_max _ hmem

/-- Claim C4: peaq_mov_prob_detect pushes P_bin to the MFPD accumulator at
channel 0 with weight 1 unconditionally, and pushes Q_bin to the ADB
accumulator at channel 0 with weight 1 exactly when P_bin > 0.5; the step
size is 1e30 when L is nonpositive and the BS.1387 polynomial otherwise; q_c
is |trunc(e)|/s with truncation toward zero; p_bin and q_bin are the
per-band maxima over channels; and P_bin and Q_bin are the product and sum
reductions over bands. -/
theorem mov_prob_detect_events (band_count : ℕ)
    (chans : List (ProbDetectChan ℝ)) (hne : chans ≠ [])
    (hpos : ∀ ch ∈ chans, ∀ i, 0 < ch.refExc i ∧ 0 < ch.testExc i) :
    (peaq_mov_prob_detect (fun x => Real.log x / Real.log 10)
        (fun x y => x ^ y) band_count chans).2 =
      (P_bin (fun x => Real.log x / Real.log 10) (fun x y => x ^ y) band_count
        chans, 1) ∧
    ((0.5 : ℝ) < P_bin (fun x => Real.log x / Real.log 10) (fun x y => x ^ y)
        band_count chans →
      (peaq_mov_prob_detect (fun x => Real.log x / Real.log 10)
        (fun x y => x ^ y) band_count chans).1 =
        some (Q_bin (fun x => Real.log x / Real.log 10) (fun x y => x ^ y)
          band_count chans, 1)) ∧
    (¬ (0.5 : ℝ) < P_bin (fun x => Real.log x / Real.log 10)
        (fun x y => x ^ y) band_count chans →
      (peaq_mov_prob_detect (fun x => Real.log x / Real.log 10)
        (fun x y => x ^ y) band_count chans).1 = none) ∧
    (∀ l : ℝ, l ≤ 0 →
      detection_step_size (fun x y : ℝ => x ^ y) l = 1e30) ∧
    (∀ l : ℝ, 0 < l →
      detection_step_size (fun x y : ℝ => x ^ y) l =
        5.95072 * (6.39468 / l) ^ (1.71332 : ℝ) + 9.01033e-11 * l ^ (4 : ℝ) +
          5.05622e-6 * l ^ (3 : ℝ) - 0.00102438 * l * l + 0.0550197 * l -
          0.198719) ∧
    (∀ x : ℝ, (0 ≤ x → trunc_toward_zero x = ((⌊x⌋ : ℤ) : ℝ)) ∧
      (x < 0 → trunc_toward_zero x = ((⌈x⌉ : ℤ) : ℝ))) ∧
    (∀ (ch : ProbDetectChan ℝ) (i : ℕ),
      qc_of (fun x => Real.log x / Real.log 10) (fun x y => x ^ y) ch i =
        |trunc_toward_zero (eref_db (fun x => Real.log x / Real.log 10) ch i -
          etest_db (fun x => Real.log x / Real.log 10) ch i)| /
          detection_step_size (fun x y => x ^ y)
            (asym_avg_excitation (fun x => Real.log x / Real.log 10) ch i)) ∧
    (∀ i : ℕ,
      p_bin (fun x => Real.log x / Real.log 10) (fun x y => x ^ y) chans i ∈
          chans.map (fun ch =>
            pc_of (fun x => Real.log x / Real.log 10) (fun x y => x ^ y) ch i) ∧
        ∀ p ∈ chans.map (fun ch =>
            pc_of (fun x => Real.log x / Real.log 10) (fun x y => x ^ y) ch i),
          p ≤ p_bin (fun x => Real.log x / Real.log 10) (fun x y => x ^ y)
            chans i) ∧
    (∀ i : ℕ,
      q_bin (fun x => Real.log x / Real.log 10) (fun x y => x ^ y) chans i ∈
          chans.map (fun ch =>
            qc_of (fun x => Real.log x / Real.log 10) (fun x y => x ^ y) ch i) ∧
        ∀ q ∈ chans.map (fun ch =>
            qc_of (fun x => Real.log x / Real.log 10) (fun x y => x ^ y) ch i),
          q ≤ q_bin (fun x => Real.log x / Real.log 10) (fun x y => x ^ y)
            chans i) ∧
    P_bin (fun x => Real.log x / Real.log 10) (fun x y => x ^ y) band_count
        chans =
      1 - ((List.range band_count).map fun i =>
        1 - p_bin (fun x => Real.log x / Real.log 10) (fun x y => x ^ y)
          chans i).prod ∧
    Q_bin (fun x => Real.log x / Real.log 10) (fun x y => x ^ y) band_count
        chans =
      ((List.range band_count).map
        (q_bin (fun x => Real.log x / Real.log 10) (fun x y => x ^ y)
          chans)).sum := by
  refine ⟨rfl, fun h => ?_, fun h => ?_, fun l hl => ?_, fun l hl => ?_,
    fun x => ⟨fun hx => ?_, fun hx => ?_⟩, fun ch i => rfl,
    fun i => p_bin_is_max hne i, fun i => q_bin_is_max _ _ hne i, rfl, rfl⟩
  · unfold peaq_mov_prob_detect
    rw [if_pos h]
  · unfold peaq_mov_prob_detect
    rw [if_neg h]
  · unfold detection_step_size
    rw [if_neg (not_lt.mpr hl)]
  · unfold detection_step_size
    rw [if_pos hl]
  · unfold trunc_toward_zero
    rw [if_pos hx]
  · unfold trunc_toward_zero
    rw [if_neg (not_le.mpr hx)]

/-- Witness for C4: a single channel with unit excitations satisfies the
hypotheses; the MFPD event is the unconditional (P_bin, 1) push. -/
theorem mov_prob_detect_events_witness :
    (peaq_mov_prob_detect (fun x => Real.log x / Real.log 10)
        (fun x y => x ^ y) 1 [⟨fun _ => 1, fun _ => 1⟩]).2 =
      (P_bin (fun x => Real.log x / Real.log 10) (fun x y => x ^ y) 1
        [⟨fun _ => 1, fun _ => 1⟩], 1) :=
  (mov_prob_detect_events 1 [⟨fun _ => 1, fun _ => 1⟩] (by simp)
    (by
      intro ch hch i
      rw [List.mem_singleton.mp hch]
      exact ⟨by norm_num, by norm_num⟩)).1

/-- Claim C10: for frames with strictly positive excitations, the value
P_bin pushed to the MFPD accumulator satisfies 0 ≤ P_bin < 1: every
per-channel probability 1 - 0.5^((e/s)^b) lies in [0, 1) since b is even,
so every factor 1 - p_bin[k] lies in (0, 1] and so does the product. -/
theorem P_bin_in_unit_interval (band_count : ℕ)
    (chans : List (ProbDetectChan ℝ))
    (hpos : ∀ ch ∈ chans, ∀ i, 0 < ch.refExc i ∧ 0 < ch.testExc i) :
    0 ≤ P_bin (fun x => Real.log x / Real.log 10) (fun x y => x ^ y)
        band_count chans ∧
      P_bin (fun x => Real.log x / Real.log 10) (fun x y => x ^ y) band_count
        chans < 1 := by
  have hfac : ∀ x ∈ (List.range band_count).map fun i =>
      1 - p_bin (fun x => Real.log x / Real.log 10) (fun x y => x ^ y) chans i,
      0 < x ∧ x ≤ 1 := by
    intro x hx
    obtain ⟨i, _, rfl⟩ := List.mem_map.mp hx
    constructor
    · linarith [p_bin_lt_one chans i]
    · linarith [p_bin_nonneg chans i]
  unfold P_bin
  constructor
  · have h1 : ((List.range band_count).map fun i =>
        1 - p_bin (fun x => Real.log x / Real.log 10) (fun x y => x ^ y)
          chans i).prod ≤ 1 :=
      list_prod_le_one fun x hx => ⟨(hfac x hx).1.le, (hfac x hx).2⟩
    linarith
  · have h2 : 0 < ((List.range band_count).map fun i =>
        1 - p_bin (fun x => Real.log x / Real.log 10) (fun x y => x ^ y)
          chans i).prod :=
      list_prod_pos fun x hx => (hfac x hx).1
    linarith

/-- Witness for C10: one channel with unit excitations has P_bin in [0, 1). -/
theorem P_bin_in_unit_interval_witness :
    0 ≤ P_bin (fun x => Real.log x / Real.log 10) (fun x y => x ^ y) 1
        [⟨fun _ => 1, fun _ => 1⟩] ∧
      P_bin (fun x => Real.log x / Real.log 10) (fun x y => x ^ y) 1
        [⟨fun _ => 1, fun _ => 1⟩] < 1 :=
  P_bin_in_unit_interval 1 [⟨fun _ => 1, fun _ => 1⟩]
    (by
      intro ch hch i
      rw [List.mem_singleton.mp hch]
      exact ⟨by norm_num, by norm_num⟩)

/-- Claim C9: for modes AVG, AVG_LOG and RMS, scaling every weight of every
channel by the same positive constant leaves get_value unchanged. -/
theorem weight_scaling_invariance {α : Type} [LinearOrderedField α]
    (sqrtf rlog10 : α → α) (k : α) (hk : 0 < k)
    (chans : List (List (α × α)))
    (hw : ∀ l ∈ chans, ∀ p ∈ l, 0 ≤ p.2) :
    peaq_movaccum_get_value sqrtf rlog10 PeaqMovAccumMode.MODE_AVG
        (scale_weights k chans) =
      peaq_movaccum_get_value sqrtf rlog10 PeaqMovAccumMode.MODE_AVG chans ∧
    peaq_movaccum_get_value sqrtf rlog10 PeaqMovAccumMode.MODE_AVG_LOG
        (scale_weights k chans) =
      peaq_movaccum_get_value sqrtf rlog10 PeaqMovAccumMode.MODE_AVG_LOG chans ∧
    peaq_movaccum_get_value sqrtf rlog10 PeaqMovAccumMode.MODE_RMS
        (scale_weights k chans) =
      peaq_movaccum_get_value sqrtf rlog10 PeaqMovAccumMode.MODE_RMS chans := by
  have hk0 : k ≠ 0 := ne_of_gt hk
  refine ⟨?_, ?_, ?_⟩
  · show channel_average ((scale_weights k chans).map avg_value) =
      channel_average (chans.map avg_value)
    rw [scale_weights, List.map_map]
    have : avg_value ∘ (List.map fun p : α × α => (p.1, k * p.2)) =
        (avg_value : List (α × α) → α) :=
      funext fun l => avg_value_scale hk0 l
    rw [this]
  · show channel_average ((scale_weights k chans).map (avg_log_value rlog10)) =
      channel_average (chans.map (avg_log_value rlog10))
    rw [scale_weights, List.map_map]
    have : avg_log_value rlog10 ∘ (List.map fun p : α × α => (p.1, k * p.2)) =
        (avg_log_value rlog10 : List (α × α) → α) :=
      funext fun l => by
        simp only [Function.comp_apply, avg_log_value, avg_value_scale hk0]
    rw [this]
  · show channel_average ((scale_weights k chans).map (rms_value sqrtf)) =
      channel_average (chans.map (rms_value sqrtf))
    rw [scale_weights, List.map_map]
    have : rms_value sqrtf ∘ (List.map fun p : α × α => (p.1, k * p.2)) =
        (rms_value sqrtf : List (α × α) → α) :=
      funext fun l => by
        simp only [Function.comp_apply, rms_value, rms_arg_scale hk0]
    rw [this]

/-- Witness for C9: doubling the weights of the spec's RMS scenario leaves
the AVG readout unchanged. -/
theorem weight_scaling_invariance_witness :
    peaq_movaccum_get_value (fun x : ℚ => x) (fun x => x)
        PeaqMovAccumMode.MODE_AVG (scale_weights 2 [[(3, 1), (4, 1)]]) =
      peaq_movaccum_get_value (fun x : ℚ => x) (fun x => x)
        PeaqMovAccumMode.MODE_AVG [[(3, 1), (4, 1)]] :=
  (weight_scaling_invariance (fun x : ℚ => x) (fun x => x) 2 (by norm_num)
    [[(3, 1), (4, 1)]]
    (by
      intro l hl p hp
      simp only [List.mem_singleton] at hl
      subst hl
      rcases List.mem_cons.mp hp with h | h
      · rw [h]
        norm_num
      · rw [List.mem_singleton.mp h]
        norm_num)).1
